import Mathlib

/-!
Verification of the onomatoparty2 game-server core (server/index.js).

The server keeps a process-wide table of rooms; each room holds an ordered
player list, a deck of card names (a stack popped from the end), the current
parent index, the per-round submission groups, a round counter and per-player
usage statistics.  All handlers are translated here as pure functions from a
registry state (plus the event's arguments) to a new registry state together
with the list of outbound emissions.

JavaScript specifics modelled explicitly:
  * `rooms` and `room.stats[...]` are JS objects; `Object.keys` /
    `Object.entries` enumerate array-index-like keys (canonical base-10
    numerals below 2^32 - 1) first in ascending numeric order, then the
    remaining keys in insertion order.  An insertion-ordered association
    list plus the `objOrder` function model this.
  * `Math.floor(Math.random() * n)` is modelled by an oracle argument.
  * A JS runtime error (indexing `undefined`) aborts the handler after the
    mutations already performed; the translation returns the mutated state
    with no further emissions on those paths.
-/

namespace Onoma

structure Player where
  id : String
  name : String
  points : Nat
deriving Repr, DecidableEq

structure Group where
  onomatopoeia : String
  playerIds : List String
deriving Repr, DecidableEq

/-- Per-player word-usage counters, insertion ordered (a JS object). -/
abbrev Usage := List (String × Nat)

/-- `room.stats`: player id ↦ usage counters, insertion ordered. -/
abbrev Stats := List (String × Usage)

structure Room where
  players : List Player
  deck : List String
  currentTurnPlayerIndex : Nat
  onomatopoeiaList : List Group
  deckName : String
  currentCard : Option String
  roundCount : Nat
  stats : Stats
deriving Repr, DecidableEq

/-- The `rooms` table: room id ↦ room, insertion ordered (a JS object). -/
abbrev Registry := List (String × Room)

/-- Outbound socket emissions. -/
inductive Emit where
  | roomsList (ids : List String)
  | updatePlayers (roomId : String) (players : List Player)
  | updateRoomInfo (roomId deckName : String)
  | gameStarted (roomId : String) (parent : Option Player)
  | cardDrawn (roomId card : String)
  | onomatopoeiaListEv (targetId : String) (groups : List Group)
  | onomatopoeiaChosen (roomId : String) (chosenPlayers : List String)
      (updatedPlayers : List Player)
  | newTurn (roomId : String) (parent : Option Player)
  | gameOver (roomId : String) (winners : List Player) (players : List Player)
      (usageStats : List (String × (Option String × Nat)))
  | errorEv (targetId msg : String)
deriving Repr, DecidableEq

/-! ### JS object key ordering -/

def digitVal (c : Char) : Option Nat :=
  if '0' ≤ c ∧ c ≤ '9' then some (c.toNat - 48) else none

def parseDigits : List Char → Option Nat → Option Nat
  | [], acc => acc
  | c :: cs, acc =>
    match digitVal c, acc with
    | some d, some n => parseDigits cs (some (n * 10 + d))
    | some d, none => parseDigits cs (some d)
    | none, _ => none

/-- Base-10 numeral value of a string of digits, `none` otherwise. -/
def strToNat (s : String) : Option Nat := parseDigits s.data none

/-- ECMAScript array-index key: the canonical base-10 numeral of an
integer `n` with `0 ≤ n < 2^32 - 1`. -/
def isArrayIndex (s : String) : Bool :=
  match strToNat s with
  | some n => decide (Nat.repr n = s) && decide (n < 4294967295)
  | none => false

def natKey (s : String) : Nat := (strToNat s).getD 0

def insSorted {α : Type} (x : String × α) : List (String × α) → List (String × α)
  | [] => [x]
  | y :: ys => if natKey x.1 ≤ natKey y.1 then x :: y :: ys else y :: insSorted x ys

def sortByNat {α : Type} (l : List (String × α)) : List (String × α) :=
  l.foldr insSorted []

/-- The order in which `Object.keys`/`Object.entries` enumerate an object's
properties: array-index keys first in ascending numeric order, then the
remaining keys in insertion order. -/
def objOrder {α : Type} (l : List (String × α)) : List (String × α) :=
  sortByNat (l.filter fun p => isArrayIndex p.1) ++ l.filter fun p => ! isArrayIndex p.1

def objKeys {α : Type} (l : List (String × α)) : List String :=
  (objOrder l).map Prod.fst

/-! ### Association-list helpers (JS object read/write) -/

/-- `obj[k]`. -/
def getAssoc {α : Type} (l : List (String × α)) (k : String) : Option α :=
  (l.find? fun p => p.1 = k).map Prod.snd

/-- `obj[k] = f obj[k]`: updating an existing key keeps its position,
a new key is appended (JS object insertion order). -/
def setAssoc {α : Type} (l : List (String × α)) (k : String) (f : Option α → α) :
    List (String × α) :=
  match l with
  | [] => [(k, f none)]
  | (k', v) :: rest =>
    if k' = k then (k, f (some v)) :: rest else (k', v) :: setAssoc rest k f

/-! ### Registry helpers -/

def findRoom (rooms : Registry) (roomId : String) : Option Room :=
  getAssoc rooms roomId

/-- `rooms[roomId] = room` for an already-present key. -/
def setRoom (rooms : Registry) (roomId : String) (room : Room) : Registry :=
  rooms.map fun p => if p.1 = roomId then (roomId, room) else p

/-- `delete rooms[roomId]`. -/
def delRoom (rooms : Registry) (roomId : String) : Registry :=
  rooms.filter fun p => ! (p.1 = roomId)

/-- `Object.keys(rooms)`, as sent with every `roomsList` emission. -/
def getRoomIds (rooms : Registry) : List String := objKeys rooms

/-! ### Fisher–Yates shuffle (createRoom, lines 53–57)

`r i` models `Math.floor(Math.random() * (i + 1))` for loop index `i`. -/

def swapL {α : Type} (l : List α) (i j : Nat) : List α :=
  match l.get? i, l.get? j with
  | some x, some y => (l.set i y).set j x
  | _, _ => l

def fyLoop {α : Type} (r : Nat → Nat) : Nat → List α → List α
  | 0, l => l
  | i + 1, l => fyLoop r i (swapL l (i + 1) (r (i + 1)))

def shuffle {α : Type} (r : Nat → Nat) (l : List α) : List α :=
  fyLoop r (l.length - 1) l

/-! ### endGame (lines 295–327) -/

/-- `Math.max(...xs)`: `none` models `-Infinity` on an empty list. -/
def maxPts : List Nat → Option Nat
  | [] => none
  | x :: xs => some (xs.foldl Nat.max x)

/-- One step of the top-word scan. -/
def topStep (best : Option String × Nat) (wc : String × Nat) : Option String × Nat :=
  if wc.2 > best.2 then (some wc.1, wc.2) else best

/-- Scan of `Object.entries(usage)`: only a strictly greater count replaces
the current best; starts from `(null, 0)`. -/
def topScan (entries : Usage) : Option String × Nat :=
  entries.foldl topStep (none, 0)

def endGame (rooms : Registry) (roomId : String) : Registry × List Emit :=
  match findRoom rooms roomId with
  | none => (rooms, [])
  | some room =>
    let finalPlayers := room.players
    let maxPoints := maxPts (finalPlayers.map Player.points)
    let winners := finalPlayers.filter fun p => maxPoints = some p.points
    let usageStats := finalPlayers.map fun p =>
      (p.id, topScan (objOrder ((getAssoc room.stats p.id).getD [])))
    (delRoom rooms roomId,
     [Emit.gameOver roomId winners finalPlayers usageStats])

/-! ### createRoom (lines 39–79)

`assets` is the deck folder lookup (`none` = read failure caught by the
`try`/`catch`); `r` is the shuffle's randomness oracle. -/

def createRoom (assets : String → Option (List String)) (r : Nat → Nat)
    (rooms : Registry) (socketId roomId playerName deckName : String) :
    Registry × List Emit :=
  if (findRoom rooms roomId).isSome then
    (rooms, [Emit.errorEv socketId "Room already exists"])
  else
    match assets deckName with
    | none => (rooms, [Emit.errorEv socketId "Failed to load deck images"])
    | some allCards =>
      let room : Room :=
        { players := [⟨socketId, playerName, 0⟩]
          deck := shuffle r allCards
          currentTurnPlayerIndex := 0
          onomatopoeiaList := []
          deckName := deckName
          currentCard := none
          roundCount := 1
          stats := [] }
      let rooms' := rooms ++ [(roomId, room)]
      (rooms', [Emit.roomsList (getRoomIds rooms'),
                Emit.updatePlayers roomId room.players])

/-! ### joinRoom (lines 84–97) -/

def joinRoom (rooms : Registry) (socketId roomId playerName : String) :
    Registry × List Emit :=
  match findRoom rooms roomId with
  | none => (rooms, [Emit.errorEv socketId "Room does not exist"])
  | some room =>
    if room.players.any fun p => p.name = playerName then
      (rooms, [Emit.errorEv socketId "Name already taken in this room"])
    else
      let room' := { room with players := room.players ++ [⟨socketId, playerName, 0⟩] }
      (setRoom rooms roomId room',
       [Emit.updatePlayers roomId room'.players])

/-! ### startGame (lines 102–113)

`k` models `Math.floor(Math.random() * room.players.length)`. -/

def startGame (rooms : Registry) (roomId : String) (k : Nat) :
    Registry × List Emit :=
  match findRoom rooms roomId with
  | none => (rooms, [])
  | some room =>
    let room' := { room with currentTurnPlayerIndex := k }
    (setRoom rooms roomId room',
     [Emit.updateRoomInfo roomId room.deckName,
      Emit.gameStarted roomId (room'.players.get? k)])

/-! ### drawCard (lines 118–135) -/

def drawCard (rooms : Registry) (roomId socketId : String) :
    Registry × List Emit :=
  match findRoom rooms roomId with
  | none => (rooms, [])
  | some room =>
    match room.players.get? room.currentTurnPlayerIndex with
    | none => (rooms, [])
    | some currentPlayer =>
      if socketId = currentPlayer.id then
        match room.deck.getLast? with
        | none => endGame rooms roomId
        | some card =>
          let room' := { room with deck := room.deck.dropLast }
          let rooms' := setRoom rooms roomId room'
          if card = "" then endGame rooms' roomId
          else
            (setRoom rooms' roomId { room' with currentCard := some card },
             [Emit.cardDrawn roomId card])
      else (rooms, [])

/-! ### submitOnomatopoeia (lines 140–191) -/

/-- `stats[sid][word] = (stats[sid][word] || 0) + 1`, creating
`stats[sid]` when absent. -/
def bumpStats (st : Stats) (sid word : String) : Stats :=
  setAssoc st sid fun u => setAssoc (u.getD []) word fun c => c.getD 0 + 1

/-- Find the first group with this text and add the submitter if new;
append a fresh group when no text matches. -/
def addToGroups (l : List Group) (sid text : String) : List Group :=
  match l with
  | [] => [⟨text, [sid]⟩]
  | g :: gs =>
    if g.onomatopoeia = text then
      (if g.playerIds.contains sid then g
       else { g with playerIds := g.playerIds ++ [sid] }) :: gs
    else g :: addToGroups gs sid text

/-- Whether the first group carrying `text` already lists `sid`. -/
def pairIn (l : List Group) (sid text : String) : Bool :=
  match l.find? fun g => g.onomatopoeia = text with
  | some g => g.playerIds.contains sid
  | none => false

/-- `totalSubmissions`: the reduce over group sizes. -/
def sumSizes (l : List Group) : Nat :=
  l.foldl (fun s g => s + g.playerIds.length) 0

def submitOnomatopoeia (connected : String → Bool) (rooms : Registry)
    (roomId socketId onomatopoeia _playerName : String) : Registry × List Emit :=
  match findRoom rooms roomId with
  | none => (rooms, [])
  | some room =>
    let stats' := bumpStats room.stats socketId onomatopoeia
    let list' := addToGroups room.onomatopoeiaList socketId onomatopoeia
    let room' := { room with stats := stats', onomatopoeiaList := list' }
    let rooms' := setRoom rooms roomId room'
    let totalSubmissions := sumSizes list'
    let expectedCount := room.players.length - 1
    if totalSubmissions = expectedCount then
      match room.players.get? room.currentTurnPlayerIndex with
      | some parentPlayer =>
        if connected parentPlayer.id then
          (rooms', [Emit.onomatopoeiaListEv parentPlayer.id list'])
        else (rooms', [])
      | none => (rooms', [])
    else (rooms', [])

/-! ### chooseOnomatopoeia (lines 196–253) -/

/-- `player.points += 1` on the first player with this id. -/
def bumpFirst : List Player → String → List Player
  | [], _ => []
  | p :: ps, pid =>
    if p.id = pid then { p with points := p.points + 1 } :: ps
    else p :: bumpFirst ps pid

/-- The `group.playerIds.forEach` loop: award a point and collect the name
for every id still present among the players. -/
def awardPoints (players : List Player) (pids : List String) :
    List Player × List String :=
  pids.foldl
    (fun acc pid =>
      match acc.1.find? fun p => p.id = pid with
      | some p => (bumpFirst acc.1 pid, acc.2 ++ [p.name])
      | none => acc)
    (players, [])

def chooseOnomatopoeia (rooms : Registry) (roomId selected : String) :
    Registry × List Emit :=
  match findRoom rooms roomId with
  | none => (rooms, [])
  | some room =>
    let found := room.onomatopoeiaList.find? fun g => g.onomatopoeia = selected
    let awarded :=
      match found with
      | some g => awardPoints room.players g.playerIds
      | none => (room.players, [])
    let players' := awarded.1
    let chosenNames := awarded.2
    match room.players.get? room.currentTurnPlayerIndex with
    | none =>
      (setRoom rooms roomId { room with players := players' }, [])
    | some _parentPlayer =>
      let room₁ := { room with players := players', onomatopoeiaList := [] }
      let rooms₁ := setRoom rooms roomId room₁
      let chosenEmit := Emit.onomatopoeiaChosen roomId chosenNames players'
      if room₁.deck.length = 0 then
        let ended := endGame rooms₁ roomId
        (ended.1, chosenEmit :: ended.2)
      else
        let room₂ :=
          { room₁ with
            currentTurnPlayerIndex :=
              (room₁.currentTurnPlayerIndex + 1) % room₁.players.length
            roundCount := room₁.roundCount + 1 }
        (setRoom rooms₁ roomId room₂,
         [chosenEmit,
          Emit.newTurn roomId (room₂.players.get? room₂.currentTurnPlayerIndex)])

/-! ### nextTurn (lines 258–268) -/

def nextTurn (rooms : Registry) (roomId : String) : Registry × List Emit :=
  match findRoom rooms roomId with
  | none => (rooms, [])
  | some room =>
    let room' :=
      { room with
        onomatopoeiaList := []
        currentTurnPlayerIndex :=
          (room.currentTurnPlayerIndex + 1) % room.players.length
        roundCount := room.roundCount + 1 }
    (setRoom rooms roomId room',
     [Emit.newTurn roomId (room'.players.get? room'.currentTurnPlayerIndex)])

/-! ### disconnect (lines 277–292) -/

def handleDisconnect (rooms : Registry) (socketId : String) :
    Registry × List Emit :=
  (objKeys rooms).foldl
    (fun acc roomId =>
      match findRoom acc.1 roomId with
      | none => acc
      | some room =>
        let ps := room.players.filter fun p => ! (p.id = socketId)
        if ps.length = 0 then
          let rooms' := delRoom acc.1 roomId
          (rooms', acc.2 ++ [Emit.roomsList (getRoomIds rooms')])
        else
          (setRoom acc.1 roomId { room with players := ps },
           acc.2 ++ [Emit.updatePlayers roomId ps]))
    (rooms, [])

/-! ## Registry lemmas -/

theorem findRoom_nil (rid : String) : findRoom [] rid = none := rfl

theorem findRoom_cons (p : String × Room) (rest : Registry) (rid : String) :
    findRoom (p :: rest) rid =
      if p.1 = rid then some p.2 else findRoom rest rid := by
  by_cases h : p.1 = rid <;>
    simp [findRoom, getAssoc, List.find?_cons, h]

theorem findRoom_setRoom_self (rooms : Registry) (rid : String) (r room0 : Room)
    (h : findRoom rooms rid = some room0) :
    findRoom (setRoom rooms rid r) rid = some r := by
  induction rooms with
  | nil => simp [findRoom, getAssoc] at h
  | cons p rest ih =>
    by_cases hp : p.1 = rid
    · simp [setRoom, hp, findRoom_cons]
    · rw [findRoom_cons, if_neg hp] at h
      simpa [setRoom, findRoom_cons, hp] using ih h

theorem findRoom_setRoom_ne (rooms : Registry) (rid k : String) (r : Room)
    (h : k ≠ rid) :
    findRoom (setRoom rooms rid r) k = findRoom rooms k := by
  have h1 : ¬ (rid = k) := fun e => h e.symm
  induction rooms with
  | nil => rfl
  | cons p rest ih =>
    by_cases hp : p.1 = rid
    · simp only [setRoom, List.map_cons, if_pos hp] at ih ⊢
      simp [findRoom_cons, h1, hp, ih]
    · simp only [setRoom, List.map_cons, if_neg hp] at ih ⊢
      by_cases hk : p.1 = k
      · simp [findRoom_cons, hk]
      · simp [findRoom_cons, hk, ih]

theorem findRoom_setRoom_cases (rooms : Registry) (rid k : String) (r room' : Room)
    (h : findRoom (setRoom rooms rid r) k = some room') :
    room' = r ∨ findRoom rooms k = some room' := by
  induction rooms with
  | nil => simp [setRoom, findRoom, getAssoc] at h
  | cons p rest ih =>
    by_cases hp : p.1 = rid
    · simp only [setRoom, List.map_cons, if_pos hp, findRoom_cons] at h
      by_cases hk : rid = k
      · simp only [hk, if_pos rfl] at h
        exact Or.inl (Option.some_injective _ h).symm
      · simp only [hk, if_false] at h
        rcases ih h with h1 | h1
        · exact Or.inl h1
        · right; rw [findRoom_cons, if_neg (by rw [hp]; exact hk)]; exact h1
    · simp only [setRoom, List.map_cons, if_neg hp, findRoom_cons] at h
      by_cases hk : p.1 = k
      · simp only [hk, if_pos rfl] at h
        right; rw [findRoom_cons, if_pos hk]; exact h
      · simp only [hk, if_false] at h
        rcases ih h with h1 | h1
        · exact Or.inl h1
        · right; rw [findRoom_cons, if_neg hk]; exact h1

theorem findRoom_delRoom_self (rooms : Registry) (rid : String) :
    findRoom (delRoom rooms rid) rid = none := by
  induction rooms with
  | nil => rfl
  | cons p rest ih =>
    by_cases hp : p.1 = rid
    · simpa [delRoom, List.filter_cons, hp] using ih
    · simp only [delRoom, List.filter_cons, hp] at ih ⊢
      simpa [findRoom_cons, hp] using ih

theorem findRoom_delRoom_ne (rooms : Registry) (rid k : String) (h : k ≠ rid) :
    findRoom (delRoom rooms rid) k = findRoom rooms k := by
  induction rooms with
  | nil => rfl
  | cons p rest ih =>
    by_cases hp : p.1 = rid
    · have hk : ¬ (p.1 = k) := by rw [hp]; exact fun e => h e.symm
      simp only [delRoom, List.filter_cons, hp] at ih ⊢
      simpa [findRoom_cons, hk] using ih
    · simp only [delRoom, List.filter_cons, hp] at ih ⊢
      by_cases hk : p.1 = k
      · simp [findRoom_cons, hk, hp]
      · simpa [findRoom_cons, hk, hp] using ih

theorem findRoom_append_cases (rooms : Registry) (rid k : String) (r : Room)
    (room' : Room) (h : findRoom (rooms ++ [(rid, r)]) k = some room') :
    findRoom rooms k = some room' ∨ (rid = k ∧ room' = r) := by
  induction rooms with
  | nil =>
    rw [List.nil_append, findRoom_cons] at h
    by_cases hk : rid = k
    · simp only [hk, if_pos rfl] at h
      exact Or.inr ⟨hk, by simpa using h.symm⟩
    · simp only [hk, if_false] at h
      simp [findRoom, getAssoc] at h
  | cons p rest ih =>
    rw [List.cons_append, findRoom_cons] at h
    by_cases hk : p.1 = k
    · simp only [hk, if_pos rfl] at h
      left; rw [findRoom_cons, if_pos hk]; exact h
    · simp only [hk, if_false] at h
      rcases ih h with h1 | h1
      · left; rw [findRoom_cons, if_neg hk]; exact h1
      · exact Or.inr h1

/-! ## Shuffle permutation lemmas -/

theorem headSwap_perm {α : Type} (t : List α) (m : Nat) (hm : m < t.length)
    (a : α) : (t.get ⟨m, hm⟩ :: t.set m a).Perm (a :: t) := by
  induction t generalizing m with
  | nil => exact absurd hm (by simp)
  | cons b t' ih =>
    cases m with
    | zero => simpa using List.Perm.swap a b t'
    | succ k =>
      have hk : k < t'.length := Nat.lt_of_succ_lt_succ hm
      have step1 : (t'.get ⟨k, hk⟩ :: b :: t'.set k a).Perm
          (b :: t'.get ⟨k, hk⟩ :: t'.set k a) := List.Perm.swap b (t'.get ⟨k, hk⟩) _
      have step2 : (b :: t'.get ⟨k, hk⟩ :: t'.set k a).Perm (b :: a :: t') :=
        (ih k hk).cons b
      have step3 : (b :: a :: t').Perm (a :: b :: t') := List.Perm.swap a b t'
      simpa using (step1.trans step2).trans step3

theorem set_set_perm {α : Type} (l : List α) (i j : Nat) (hi : i < l.length)
    (hj : j < l.length) :
    ((l.set i (l.get ⟨j, hj⟩)).set j (l.get ⟨i, hi⟩)).Perm l := by
  induction l generalizing i j with
  | nil => exact absurd hi (by simp)
  | cons a t ih =>
    cases i with
    | zero =>
      cases j with
      | zero => simp
      | succ m =>
        have hm : m < t.length := Nat.lt_of_succ_lt_succ hj
        simpa using headSwap_perm t m hm a
    | succ n =>
      cases j with
      | zero =>
        have hn : n < t.length := Nat.lt_of_succ_lt_succ hi
        simpa using headSwap_perm t n hn a
      | succ m =>
        have hn : n < t.length := Nat.lt_of_succ_lt_succ hi
        have hm : m < t.length := Nat.lt_of_succ_lt_succ hj
        simpa using (ih n m hn hm).cons a

theorem swapL_perm {α : Type} (l : List α) (i j : Nat) : (swapL l i j).Perm l := by
  rw [swapL]
  cases h1 : l.get? i with
  | none => exact List.Perm.refl l
  | some x =>
    cases h2 : l.get? j with
    | none => exact List.Perm.refl l
    | some y =>
      obtain ⟨hi, hx⟩ := List.get?_eq_some.mp h1
      obtain ⟨hj, hy⟩ := List.get?_eq_some.mp h2
      subst hx
      subst hy
      exact set_set_perm l i j hi hj

theorem fyLoop_perm {α : Type} (r : Nat → Nat) :
    ∀ (n : Nat) (l : List α), (fyLoop r n l).Perm l := by
  intro n
  induction n with
  | zero => exact fun l => List.Perm.refl l
  | succ i ih =>
    intro l
    exact (ih (swapL l (i + 1) (r (i + 1)))).trans (swapL_perm l (i + 1) (r (i + 1)))

/-- C5: Shuffle is a permutation — for every input deck and every sequence of
random choices, the shuffled deck is a permutation of the input (same
multiset of elements) and has the same length. -/
theorem C5_shuffle_isPermutation (l : List String) (r : Nat → Nat) :
    (shuffle r l).Perm l ∧ (shuffle r l).length = l.length := by
  have h := fyLoop_perm r (l.length - 1) l
  exact ⟨h, h.length_eq⟩

theorem findRoom_append_self (rooms : Registry) (rid : String) (r : Room)
    (h : findRoom rooms rid = none) :
    findRoom (rooms ++ [(rid, r)]) rid = some r := by
  induction rooms with
  | nil => simp [findRoom_cons]
  | cons p rest ih =>
    rw [findRoom_cons] at h
    by_cases hp : p.1 = rid
    · simp [hp] at h
    · rw [List.cons_append, findRoom_cons, if_neg hp]
      exact ih (by simpa [hp] using h)

/-- The room state `createRoom` installs for its creator. -/
def freshRoom (r : Nat → Nat) (socketId playerName deckName : String)
    (allCards : List String) : Room :=
  { players := [⟨socketId, playerName, 0⟩]
    deck := shuffle r allCards
    currentTurnPlayerIndex := 0
    onomatopoeiaList := []
    deckName := deckName
    currentCard := none
    roundCount := 1
    stats := [] }

/-- C7: Room creation is exclusive and atomic on failure — starting from a
registry without `rid` and a deck that loads, the first `createRoom`
installs the fresh room (appended to the registry) and succeeds, and an
immediately following `createRoom` with the same `rid` emits exactly the
`RoomExists` error and leaves the registry — including the existing room's
state — unchanged. -/
theorem C7_createRoom_exclusive (assets : String → Option (List String))
    (r r2 : Nat → Nat) (rooms : Registry)
    (sid rid pn dn sid2 pn2 dn2 : String) (cards : List String)
    (habs : findRoom rooms rid = none) (hdeck : assets dn = some cards) :
    createRoom assets r rooms sid rid pn dn =
      (rooms ++ [(rid, freshRoom r sid pn dn cards)],
       [Emit.roomsList (getRoomIds (rooms ++ [(rid, freshRoom r sid pn dn cards)])),
        Emit.updatePlayers rid [⟨sid, pn, 0⟩]])
    ∧ createRoom assets r2 (rooms ++ [(rid, freshRoom r sid pn dn cards)])
        sid2 rid pn2 dn2 =
      (rooms ++ [(rid, freshRoom r sid pn dn cards)],
       [Emit.errorEv sid2 "Room already exists"]) := by
  constructor
  · simp [createRoom, habs, hdeck, freshRoom]
  · have hfound := findRoom_append_self rooms rid (freshRoom r sid pn dn cards) habs
    simp [createRoom, hfound]

/-- Witness for C7 at a concrete registry, deck lookup and randomness. -/
theorem C7_createRoom_exclusive_witness :
    createRoom (fun _ => some ["c1"]) (fun _ => 0) [] "s1" "room1" "Alice" "animals" =
      ([("room1", freshRoom (fun _ => 0) "s1" "Alice" "animals" ["c1"])],
       [Emit.roomsList (getRoomIds
          [("room1", freshRoom (fun _ => 0) "s1" "Alice" "animals" ["c1"])]),
        Emit.updatePlayers "room1" [⟨"s1", "Alice", 0⟩]])
    ∧ createRoom (fun _ => some ["c1"]) (fun _ => 0)
        [("room1", freshRoom (fun _ => 0) "s1" "Alice" "animals" ["c1"])]
        "s2" "room1" "Bob" "animals" =
      ([("room1", freshRoom (fun _ => 0) "s1" "Alice" "animals" ["c1"])],
       [Emit.errorEv "s2" "Room already exists"]) := by
  have h := C7_createRoom_exclusive (fun _ => some ["c1"]) (fun _ => 0) (fun _ => 0)
    [] "s1" "room1" "Alice" "animals" "s2" "Bob" "animals" ["c1"] rfl rfl
  simpa using h

/-! ## Room-list ordering (getRooms / Object.keys) -/

/-- The registry after creating room "b" and then room "1". -/
def regC8 : Registry :=
  (createRoom (fun _ => some []) (fun _ => 0)
    (createRoom (fun _ => some []) (fun _ => 0) [] "s1" "b" "A" "d").1
    "s2" "1" "B" "d").1

/-- C8 counterexample: rooms are created in the order "b", "1", yet
`getRoomIds` lists "1" first, because JavaScript objects enumerate
array-index-like keys before the others — so the returned order is not
the insertion order of creation. -/
theorem C8_counterexample :
    regC8.map Prod.fst = ["b", "1"] ∧ getRoomIds regC8 = ["1", "b"] ∧
      (["1", "b"] : List String) ≠ ["b", "1"] := by
  refine ⟨by decide, by decide, by decide⟩

/-- C8 amended: `getRoomIds` lists array-index-like ids (canonical numerals
below 2^32 − 1) first in ascending numeric order and only then the other ids
in creation order; when no room id is array-index-like it returns exactly
the insertion order of room creation. -/
theorem C8_getRoomIds_insertionOrder (rooms : Registry)
    (h : ∀ p ∈ rooms, isArrayIndex p.1 = false) :
    getRoomIds rooms = rooms.map Prod.fst := by
  have h1 : rooms.filter (fun p => isArrayIndex p.1) = [] := by
    rw [List.filter_eq_nil_iff]
    intro a ha
    simp [h a ha]
  have h2 : rooms.filter (fun p => ! isArrayIndex p.1) = rooms := by
    rw [List.filter_eq_self]
    intro a ha
    simp [h a ha]
  rw [getRoomIds, objKeys, objOrder, h1, h2]
  rfl

/-- Witness for C8 amended at a concrete two-room registry with
non-numeric ids. -/
theorem C8_getRoomIds_insertionOrder_witness :
    getRoomIds (createRoom (fun _ => some []) (fun _ => 0)
        (createRoom (fun _ => some []) (fun _ => 0) [] "s1" "b" "A" "d").1
        "s2" "x" "B" "d").1 =
      ((createRoom (fun _ => some []) (fun _ => 0)
        (createRoom (fun _ => some []) (fun _ => 0) [] "s1" "b" "A" "d").1
        "s2" "x" "B" "d").1).map Prod.fst := by
  exact C8_getRoomIds_insertionOrder _ (by decide)

/-! ## Submission counting lemmas -/

/-- The usage counter `stats[sid][word] || 0`. -/
def statCount (st : Stats) (sid word : String) : Nat :=
  (getAssoc ((getAssoc st sid).getD []) word).getD 0

theorem getAssoc_setAssoc_self {α : Type} (l : List (String × α)) (k : String)
    (f : Option α → α) :
    getAssoc (setAssoc l k f) k = some (f (getAssoc l k)) := by
  induction l with
  | nil => simp [setAssoc, getAssoc]
  | cons p rest ih =>
    obtain ⟨k', v⟩ := p
    by_cases hk : k' = k
    · simp [setAssoc, getAssoc, hk]
    · simpa [setAssoc, getAssoc, List.find?_cons, hk] using ih

theorem statCount_bumpStats (st : Stats) (sid word : String) :
    statCount (bumpStats st sid word) sid word = statCount st sid word + 1 := by
  rw [statCount, bumpStats, getAssoc_setAssoc_self]
  simp [getAssoc_setAssoc_self, statCount]

/-- Number of groups carrying a given answer text. -/
def textCount (l : List Group) (t : String) : Nat :=
  (l.filter fun g => g.onomatopoeia = t).length

theorem pairIn_addToGroups (l : List Group) (sid t : String) :
    pairIn (addToGroups l sid t) sid t = true := by
  induction l with
  | nil => simp [addToGroups, pairIn, List.find?_cons]
  | cons g gs ih =>
    by_cases hg : g.onomatopoeia = t
    · by_cases hs : sid ∈ g.playerIds
      · simp [addToGroups, hg, hs, pairIn, List.find?_cons]
      · simp [addToGroups, hg, hs, pairIn, List.find?_cons]
    · simpa [addToGroups, hg, pairIn, List.find?_cons] using ih

theorem addToGroups_of_pairIn (l : List Group) (sid t : String)
    (h : pairIn l sid t = true) : addToGroups l sid t = l := by
  induction l with
  | nil => simp [pairIn] at h
  | cons g gs ih =>
    by_cases hg : g.onomatopoeia = t
    · rw [pairIn, List.find?_cons] at h
      simp only [hg] at h
      have hs : sid ∈ g.playerIds := by simpa using h
      simp [addToGroups, hg, hs]
    · rw [pairIn, List.find?_cons] at h
      simp only [hg] at h
      have h2 := ih (by simpa [pairIn] using h)
      simp [addToGroups, hg, h2]

theorem textCount_addToGroups (l : List Group) (sid t : String) :
    textCount (addToGroups l sid t) t =
      if textCount l t = 0 then 1 else textCount l t := by
  induction l with
  | nil => simp [addToGroups, textCount]
  | cons g gs ih =>
    by_cases hg : g.onomatopoeia = t
    · by_cases hs : sid ∈ g.playerIds
      · simp [addToGroups, hg, hs, textCount, List.filter_cons]
      · simp [addToGroups, hg, hs, textCount, List.filter_cons]
    · simpa [addToGroups, hg, textCount, List.filter_cons] using ih

theorem memCount_addToGroups (l : List Group) (sid t : String)
    (h : ∀ g ∈ l, g.playerIds.count sid ≤ 1) :
    ∀ g ∈ addToGroups l sid t, g.playerIds.count sid ≤ 1 := by
  induction l with
  | nil =>
    intro g hg
    simp only [addToGroups, List.mem_singleton] at hg
    subst hg
    simp
  | cons g0 gs ih =>
    intro g hg
    by_cases hg0 : g0.onomatopoeia = t
    · by_cases hs : sid ∈ g0.playerIds
      · simp only [addToGroups, hg0, if_true, if_pos (by simpa using hs : g0.playerIds.contains sid = true)] at hg
        exact h g (by simpa using hg)
      · simp only [addToGroups, hg0, if_true, if_neg (by simpa using hs : ¬ g0.playerIds.contains sid = true)] at hg
        rcases List.mem_cons.mp hg with h1 | h1
        · subst h1
          have h0 : g0.playerIds.count sid = 0 := List.count_eq_zero.mpr hs
          simp [List.count_append, h0]
        · exact h g (List.mem_cons_of_mem _ h1)
    · simp only [addToGroups] at hg
      rw [if_neg hg0] at hg
      rcases List.mem_cons.mp hg with h1 | h1
      · subst h1; exact h g (List.mem_cons_self _ _)
      · exact ih (fun g' hg' => h g' (List.mem_cons_of_mem _ hg')) g h1

/-- The room mutation performed by one `submitOnomatopoeia` call. -/
def subRoom (room : Room) (sid t : String) : Room :=
  { room with
    stats := bumpStats room.stats sid t
    onomatopoeiaList := addToGroups room.onomatopoeiaList sid t }

theorem submit_fst (connected : String → Bool) (rooms : Registry)
    (rid sid t pn : String) (room : Room) (hr : findRoom rooms rid = some room) :
    (submitOnomatopoeia connected rooms rid sid t pn).1 =
      setRoom rooms rid (subRoom room sid t) := by
  rw [submitOnomatopoeia, hr]
  simp only [subRoom]
  split
  · split
    · split <;> rfl
    · rfl
  · rfl

/-- C6: Dual counting of repeated submissions — two submissions of the same
text by the same player each bump `usageStats[player][text]` by one (so by
two in total), while the submission grouping is idempotent: the second
submit leaves `onomatopoeiaList` unchanged, the player's id is recorded and
appears at most once in each group, and no second group entry for the text
exists. -/
theorem C6_dual_counting (connected : String → Bool) (rooms : Registry)
    (rid sid t pn : String) (room : Room)
    (hr : findRoom rooms rid = some room)
    (htc : textCount room.onomatopoeiaList t ≤ 1)
    (hcnt : ∀ g ∈ room.onomatopoeiaList, g.playerIds.count sid ≤ 1) :
    (submitOnomatopoeia connected rooms rid sid t pn).1 =
      setRoom rooms rid (subRoom room sid t)
    ∧ (submitOnomatopoeia connected (setRoom rooms rid (subRoom room sid t))
        rid sid t pn).1 =
      setRoom (setRoom rooms rid (subRoom room sid t)) rid
        (subRoom (subRoom room sid t) sid t)
    ∧ statCount (subRoom room sid t).stats sid t = statCount room.stats sid t + 1
    ∧ statCount (subRoom (subRoom room sid t) sid t).stats sid t =
        statCount room.stats sid t + 2
    ∧ (subRoom (subRoom room sid t) sid t).onomatopoeiaList =
        (subRoom room sid t).onomatopoeiaList
    ∧ pairIn (subRoom room sid t).onomatopoeiaList sid t = true
    ∧ textCount (subRoom room sid t).onomatopoeiaList t ≤ 1
    ∧ ∀ g ∈ (subRoom room sid t).onomatopoeiaList, g.playerIds.count sid ≤ 1 := by
  refine ⟨submit_fst connected rooms rid sid t pn room hr,
    submit_fst connected _ rid sid t pn (subRoom room sid t)
      (findRoom_setRoom_self rooms rid (subRoom room sid t) room hr),
    statCount_bumpStats room.stats sid t, ?_, ?_, ?_, ?_, ?_⟩
  · show statCount (bumpStats (bumpStats room.stats sid t) sid t) sid t = _
    rw [statCount_bumpStats, statCount_bumpStats]
  · show addToGroups (addToGroups room.onomatopoeiaList sid t) sid t = _
    exact addToGroups_of_pairIn _ sid t (pairIn_addToGroups room.onomatopoeiaList sid t)
  · exact pairIn_addToGroups room.onomatopoeiaList sid t
  · show textCount (addToGroups room.onomatopoeiaList sid t) t ≤ 1
    rw [textCount_addToGroups]
    split
    · exact Nat.le_refl 1
    · exact htc
  · exact memCount_addToGroups room.onomatopoeiaList sid t hcnt

/-- A two-player room in mid-round, used to witness C6. -/
def roomC6 : Room :=
  { players := [⟨"p", "P", 0⟩, ⟨"c", "C", 0⟩], deck := ["k"],
    currentTurnPlayerIndex := 0, onomatopoeiaList := [],
    deckName := "d", currentCard := some "k0", roundCount := 1,
    stats := [] }

/-- Witness for C6: a concrete one-room registry, submitting "boing" twice
from the same child player. -/
theorem C6_dual_counting_witness :
    (submitOnomatopoeia (fun _ => true) [("r", roomC6)] "r" "c" "boing" "C").1 =
      setRoom [("r", roomC6)] "r" (subRoom roomC6 "c" "boing")
    ∧ statCount (subRoom roomC6 "c" "boing").stats "c" "boing" =
        statCount roomC6.stats "c" "boing" + 1 := by
  have h := C6_dual_counting (fun _ => true) [("r", roomC6)] "r" "c" "boing" "C"
    roomC6 rfl (by decide) (by simp [roomC6])
  exact ⟨h.1, h.2.2.1⟩

/-! ## Submission-completeness trigger -/

theorem sumSizes_foldl (l : List Group) (a : Nat) :
    l.foldl (fun s g => s + g.playerIds.length) a = a + sumSizes l := by
  induction l generalizing a with
  | nil => simp [sumSizes]
  | cons g gs ih =>
    rw [sumSizes, List.foldl_cons, List.foldl_cons, ih, ih (0 + g.playerIds.length)]
    omega

theorem sumSizes_cons (g : Group) (gs : List Group) :
    sumSizes (g :: gs) = g.playerIds.length + sumSizes gs := by
  rw [sumSizes, List.foldl_cons, sumSizes_foldl]
  omega

theorem sumSizes_addToGroups_new (l : List Group) (sid t : String)
    (h : pairIn l sid t = false) :
    sumSizes (addToGroups l sid t) = sumSizes l + 1 := by
  induction l with
  | nil => simp [addToGroups, sumSizes_cons, sumSizes]
  | cons g gs ih =>
    by_cases hg : g.onomatopoeia = t
    · rw [pairIn, List.find?_cons] at h
      simp only [hg] at h
      have hs : sid ∉ g.playerIds := by simpa using h
      simp only [addToGroups, hg, if_true]
      rw [if_neg (by simpa using hs : ¬ g.playerIds.contains sid = true),
        sumSizes_cons, sumSizes_cons]
      simp [Nat.add_assoc, Nat.add_comm, Nat.add_left_comm]
    · rw [pairIn, List.find?_cons] at h
      simp only [hg] at h
      have h2 := ih (by simpa [pairIn] using h)
      simp only [addToGroups]
      rw [if_neg hg, sumSizes_cons, sumSizes_cons, h2]
      omega

/-- C1 amended: with the parent index valid and the parent's socket
connected, `submitOnomatopoeia` delivers `onomatopoeiaList` to the parent
exactly when, after recording the submission, the total of all group sizes
(the number of distinct (player, text) pairs submitted this round) equals
`players.length - 1`; a duplicate submission of a text already credited to
this player leaves the groups — hence that total — unchanged (so it
re-triggers the delivery whenever the total already equals the threshold),
and a non-duplicate submission raises the total by exactly one. -/
theorem C1_amended (connected : String → Bool) (rooms : Registry)
    (rid sid t pn : String) (room : Room) (parent : Player)
    (hr : findRoom rooms rid = some room)
    (hp : room.players.get? room.currentTurnPlayerIndex = some parent)
    (hc : connected parent.id = true) :
    ((submitOnomatopoeia connected rooms rid sid t pn).2 =
        [Emit.onomatopoeiaListEv parent.id (addToGroups room.onomatopoeiaList sid t)]
      ↔ sumSizes (addToGroups room.onomatopoeiaList sid t) =
          room.players.length - 1)
    ∧ (pairIn room.onomatopoeiaList sid t = true →
        addToGroups room.onomatopoeiaList sid t = room.onomatopoeiaList)
    ∧ (pairIn room.onomatopoeiaList sid t = false →
        sumSizes (addToGroups room.onomatopoeiaList sid t) =
          sumSizes room.onomatopoeiaList + 1) := by
  have hmain : (submitOnomatopoeia connected rooms rid sid t pn).2 =
      if sumSizes (addToGroups room.onomatopoeiaList sid t) =
          room.players.length - 1
      then [Emit.onomatopoeiaListEv parent.id
              (addToGroups room.onomatopoeiaList sid t)]
      else [] := by
    rw [submitOnomatopoeia, hr]
    simp only [hp, hc]
    split <;> rfl
  refine ⟨?_, addToGroups_of_pairIn room.onomatopoeiaList sid t,
    sumSizes_addToGroups_new room.onomatopoeiaList sid t⟩
  rw [hmain]
  constructor
  · intro h
    by_cases hcond : sumSizes (addToGroups room.onomatopoeiaList sid t) =
        room.players.length - 1
    · exact hcond
    · rw [if_neg hcond] at h
      exact absurd h.symm (List.cons_ne_nil _ _)
  · intro h
    rw [if_pos h]

/-- A two-player room (parent "p", child "c") about to receive submissions. -/
def roomC1 : Room :=
  { players := [⟨"p", "P", 0⟩, ⟨"c", "C", 0⟩], deck := ["k"],
    currentTurnPlayerIndex := 0, onomatopoeiaList := [],
    deckName := "d", currentCard := some "k0", roundCount := 1,
    stats := [] }

/-- C1 counterexample: in the 2-player room `roomC1` the child submits "x"
and the parent is sent `onomatopoeiaList`; the child then submits the very
same text again — a duplicate — and the parent is sent the list a second
time, refuting delivery "exactly once" and "duplicates do not re-trigger". -/
theorem C1_counterexample :
    (submitOnomatopoeia (fun _ => true) [("r", roomC1)] "r" "c" "x" "C").2 =
      [Emit.onomatopoeiaListEv "p" [⟨"x", ["c"]⟩]]
    ∧ (submitOnomatopoeia (fun _ => true)
        (submitOnomatopoeia (fun _ => true) [("r", roomC1)] "r" "c" "x" "C").1
        "r" "c" "x" "C").2 =
      [Emit.onomatopoeiaListEv "p" [⟨"x", ["c"]⟩]] := by
  refine ⟨by decide, by decide⟩

/-- Witness for C1 amended at the concrete room `roomC1`, first submission. -/
theorem C1_amended_witness :
    ((submitOnomatopoeia (fun _ => true) [("r", roomC1)] "r" "c" "x" "C").2 =
        [Emit.onomatopoeiaListEv "p" (addToGroups roomC1.onomatopoeiaList "c" "x")]
      ↔ sumSizes (addToGroups roomC1.onomatopoeiaList "c" "x") =
          roomC1.players.length - 1)
    ∧ (pairIn roomC1.onomatopoeiaList "c" "x" = true →
        addToGroups roomC1.onomatopoeiaList "c" "x" = roomC1.onomatopoeiaList)
    ∧ (pairIn roomC1.onomatopoeiaList "c" "x" = false →
        sumSizes (addToGroups roomC1.onomatopoeiaList "c" "x") =
          sumSizes roomC1.onomatopoeiaList + 1) :=
  C1_amended (fun _ => true) [("r", roomC1)] "r" "c" "x" "C" roomC1
    ⟨"p", "P", 0⟩ rfl rfl rfl

/-! ## Turn-index invariant -/

/-- A room in a healthy state: players present and the parent index in
range. -/
def roomOk (room : Room) : Prop :=
  room.players ≠ [] ∧ room.currentTurnPlayerIndex < room.players.length

/-- Every registered room is healthy. -/
def regInv (rooms : Registry) : Prop :=
  ∀ rid room, findRoom rooms rid = some room → roomOk room

theorem regInv_setRoom (rooms : Registry) (rid : String) (room' : Room)
    (h : regInv rooms) (hok : roomOk room') : regInv (setRoom rooms rid room') := by
  intro k r hf
  rcases findRoom_setRoom_cases rooms rid k room' r hf with h1 | h1
  · exact h1 ▸ hok
  · exact h k r h1

theorem regInv_delRoom (rooms : Registry) (rid : String) (h : regInv rooms) :
    regInv (delRoom rooms rid) := by
  intro k r hf
  by_cases hk : k = rid
  · rw [hk, findRoom_delRoom_self] at hf; cases hf
  · rw [findRoom_delRoom_ne rooms rid k hk] at hf; exact h k r hf

theorem regInv_endGame (rooms : Registry) (rid : String) (h : regInv rooms) :
    regInv (endGame rooms rid).1 := by
  rw [endGame]
  cases hfr : findRoom rooms rid with
  | none => exact h
  | some room => exact regInv_delRoom rooms rid h

theorem bumpFirst_length (ps : List Player) (pid : String) :
    (bumpFirst ps pid).length = ps.length := by
  induction ps with
  | nil => rfl
  | cons p rest ih => by_cases hp : p.id = pid <;> simp [bumpFirst, hp, ih]

theorem awardPoints_foldl_length (pids : List String) (ps : List Player)
    (ns : List String) :
    ((pids.foldl
        (fun acc pid =>
          match acc.1.find? fun p => p.id = pid with
          | some p => (bumpFirst acc.1 pid, acc.2 ++ [p.name])
          | none => acc)
        (ps, ns)).1).length = ps.length := by
  induction pids generalizing ps ns with
  | nil => rfl
  | cons pid rest ih =>
    rw [List.foldl_cons]
    cases hf : ps.find? fun p => p.id = pid with
    | none => simpa [hf] using ih ps ns
    | some p =>
      simp only [hf]
      rw [ih (bumpFirst ps pid) (ns ++ [p.name]), bumpFirst_length]

theorem awardPoints_fst_length (players : List Player) (pids : List String) :
    ((awardPoints players pids).1).length = players.length :=
  awardPoints_foldl_length pids players []

theorem regInv_createRoom (assets : String → Option (List String))
    (r : Nat → Nat) (rooms : Registry) (sid rid pn dn : String)
    (h : regInv rooms) : regInv (createRoom assets r rooms sid rid pn dn).1 := by
  rw [createRoom]
  by_cases hex : (findRoom rooms rid).isSome
  · simpa [hex] using h
  · simp only [hex, if_false, Bool.false_eq_true]
    cases hd : assets dn with
    | none => exact h
    | some cards =>
      dsimp only
      intro k rm hf
      rcases findRoom_append_cases rooms rid k _ rm hf with h1 | h1
      · exact h k rm h1
      · rw [h1.2]; exact ⟨by simp, by simp⟩

theorem regInv_joinRoom (rooms : Registry) (sid rid pn : String)
    (h : regInv rooms) : regInv (joinRoom rooms sid rid pn).1 := by
  rw [joinRoom]
  cases hfr : findRoom rooms rid with
  | none => exact h
  | some room =>
    dsimp only
    by_cases htaken : room.players.any fun p => p.name = pn
    · simp only [htaken, if_true]
      exact h
    · simp only [htaken, Bool.false_eq_true, if_false]
      have hok := h rid room hfr
      have hok2 := hok.2
      refine regInv_setRoom rooms rid _ h ⟨by simp, ?_⟩
      simp only [List.length_append, List.length_cons, List.length_nil]
      omega

theorem regInv_startGame (rooms : Registry) (rid : String) (k : Nat)
    (h : regInv rooms)
    (hk : ∀ room, findRoom rooms rid = some room → k < room.players.length) :
    regInv (startGame rooms rid k).1 := by
  rw [startGame]
  cases hfr : findRoom rooms rid with
  | none => exact h
  | some room =>
    dsimp only
    have hok := h rid room hfr
    exact regInv_setRoom rooms rid _ h ⟨hok.1, hk room hfr⟩

theorem regInv_drawCard (rooms : Registry) (rid sid : String)
    (h : regInv rooms) : regInv (drawCard rooms rid sid).1 := by
  rw [drawCard]
  cases hfr : findRoom rooms rid with
  | none => exact h
  | some room =>
    dsimp only
    cases hgp : room.players.get? room.currentTurnPlayerIndex with
    | none => exact h
    | some cur =>
      dsimp only
      by_cases hsid : sid = cur.id
      · rw [if_pos hsid]
        cases hlast : room.deck.getLast? with
        | none => exact regInv_endGame rooms rid h
        | some card =>
          dsimp only
          have hok := h rid room hfr
          by_cases hcard : card = ""
          · rw [if_pos hcard]
            exact regInv_endGame _ rid
              (regInv_setRoom rooms rid _ h ⟨hok.1, hok.2⟩)
          · rw [if_neg hcard]
            exact regInv_setRoom _ rid _
              (regInv_setRoom rooms rid _ h ⟨hok.1, hok.2⟩) ⟨hok.1, hok.2⟩
      · rw [if_neg hsid]
        exact h

theorem regInv_choose (rooms : Registry) (rid t : String)
    (h : regInv rooms) : regInv (chooseOnomatopoeia rooms rid t).1 := by
  rw [chooseOnomatopoeia]
  cases hfr : findRoom rooms rid with
  | none => exact h
  | some room =>
    dsimp only
    have hok := h rid room hfr
    cases hfg : room.onomatopoeiaList.find? fun g => g.onomatopoeia = t with
    | some g =>
      dsimp only
      have hlen : ((awardPoints room.players g.playerIds).1).length =
          room.players.length := awardPoints_fst_length room.players g.playerIds
      have hne : (awardPoints room.players g.playerIds).1 ≠ [] := by
        intro hnil
        rw [hnil] at hlen
        exact hok.1 (List.eq_nil_of_length_eq_zero hlen.symm)
      cases hgp : room.players.get? room.currentTurnPlayerIndex with
      | none =>
        exact regInv_setRoom rooms rid _ h ⟨hne, by rw [hlen]; exact hok.2⟩
      | some parent =>
        dsimp only
        by_cases hdeck : room.deck.length = 0
        · rw [if_pos hdeck]
          exact regInv_endGame _ rid
            (regInv_setRoom rooms rid _ h ⟨hne, by rw [hlen]; exact hok.2⟩)
        · rw [if_neg hdeck]
          refine regInv_setRoom _ rid _
            (regInv_setRoom rooms rid _ h ⟨hne, by rw [hlen]; exact hok.2⟩)
            ⟨hne, ?_⟩
          exact Nat.mod_lt _ (List.length_pos.mpr hne)
    | none =>
      dsimp only
      cases hgp : room.players.get? room.currentTurnPlayerIndex with
      | none =>
        exact regInv_setRoom rooms rid _ h ⟨hok.1, hok.2⟩
      | some parent =>
        dsimp only
        by_cases hdeck : room.deck.length = 0
        · rw [if_pos hdeck]
          exact regInv_endGame _ rid
            (regInv_setRoom rooms rid _ h ⟨hok.1, hok.2⟩)
        · rw [if_neg hdeck]
          exact regInv_setRoom _ rid _
            (regInv_setRoom rooms rid _ h ⟨hok.1, hok.2⟩)
            ⟨hok.1, Nat.mod_lt _ (List.length_pos.mpr hok.1)⟩

theorem regInv_nextTurn (rooms : Registry) (rid : String)
    (h : regInv rooms) : regInv (nextTurn rooms rid).1 := by
  rw [nextTurn]
  cases hfr : findRoom rooms rid with
  | none => exact h
  | some room =>
    dsimp only
    have hok := h rid room hfr
    exact regInv_setRoom rooms rid _ h
      ⟨hok.1, Nat.mod_lt _ (List.length_pos.mpr hok.1)⟩

/-- A healthy two-player room whose parent is the second player. -/
def roomC2 : Room :=
  { players := [⟨"a", "A", 0⟩, ⟨"b", "B", 0⟩], deck := [],
    currentTurnPlayerIndex := 1, onomatopoeiaList := [],
    deckName := "d", currentCard := none, roundCount := 1, stats := [] }

/-- The room left behind after player "b" disconnects from `roomC2`. -/
def roomC2after : Room :=
  { players := [⟨"a", "A", 0⟩], deck := [],
    currentTurnPlayerIndex := 1, onomatopoeiaList := [],
    deckName := "d", currentCard := none, roundCount := 1, stats := [] }

/-- C2 counterexample: `roomC2` is healthy (non-empty players, index in
range), yet after the parent "b" disconnects the room still exists with a
non-empty player list while `currentTurnPlayerIndex = 1` is out of bounds
for the single remaining player — the invariant fails after
`handleDisconnect`. -/
theorem C2_counterexample :
    roomOk roomC2
    ∧ findRoom (handleDisconnect [("r", roomC2)] "b").1 "r" = some roomC2after
    ∧ roomC2after.players ≠ []
    ∧ ¬ roomOk roomC2after := by
  refine ⟨⟨by decide, by decide⟩, by decide, by decide, ?_⟩
  intro hok
  exact absurd hok.2 (by decide)

/-- C2 amended: the turn-index validity invariant (every registered room has
non-empty players and `currentTurnPlayerIndex < players.length`) is
preserved by `createRoom`, `joinRoom`, `startGame` (whose random parent
draw is below the player count), `drawCard`, `chooseOnomatopoeia`
(chooseAnswer) and `nextTurn` (forceNextTurn) — every listed operation
except `handleDisconnect`, which can leave a non-empty room with an
out-of-range index. -/
theorem C2_amended (rooms : Registry) (h : regInv rooms) :
    (∀ assets r sid rid pn dn, regInv (createRoom assets r rooms sid rid pn dn).1)
    ∧ (∀ sid rid pn, regInv (joinRoom rooms sid rid pn).1)
    ∧ (∀ rid k, (∀ room, findRoom rooms rid = some room →
        k < room.players.length) → regInv (startGame rooms rid k).1)
    ∧ (∀ rid sid, regInv (drawCard rooms rid sid).1)
    ∧ (∀ rid t, regInv (chooseOnomatopoeia rooms rid t).1)
    ∧ (∀ rid, regInv (nextTurn rooms rid).1) :=
  ⟨fun assets r sid rid pn dn => regInv_createRoom assets r rooms sid rid pn dn h,
   fun sid rid pn => regInv_joinRoom rooms sid rid pn h,
   fun rid k hk => regInv_startGame rooms rid k h hk,
   fun rid sid => regInv_drawCard rooms rid sid h,
   fun rid t => regInv_choose rooms rid t h,
   fun rid => regInv_nextTurn rooms rid h⟩

theorem regInv_single (k : String) (r : Room) (hok : roomOk r) :
    regInv [(k, r)] := by
  intro rid room hf
  rw [findRoom_cons] at hf
  by_cases hk : k = rid
  · rw [if_pos hk] at hf
    exact (Option.some_injective _ hf) ▸ hok
  · rw [if_neg hk] at hf
    simp [findRoom, getAssoc] at hf

/-- Witness for C2 amended on the concrete one-room registry over
`roomC2`. -/
theorem C2_amended_witness :
    regInv (drawCard [("r", roomC2)] "r" "a").1
    ∧ regInv (nextTurn [("r", roomC2)] "r").1 := by
  have h := C2_amended [("r", roomC2)]
    (regInv_single "r" roomC2 ⟨by decide, by decide⟩)
  exact ⟨h.2.2.2.1 "r" "a", h.2.2.2.2.2 "r"⟩

/-! ## Scoring lemmas -/

theorem bumpFirst_eq_map (ps : List Player) (pid : String)
    (hN : (ps.map Player.id).Nodup) :
    bumpFirst ps pid =
      ps.map fun p => if p.id = pid then { p with points := p.points + 1 } else p := by
  induction ps with
  | nil => rfl
  | cons p rest ih =>
    rw [List.map_cons, List.nodup_cons] at hN
    by_cases hp : p.id = pid
    · rw [bumpFirst, if_pos hp, List.map_cons, if_pos hp]
      have hrest : rest.map
          (fun q => if q.id = pid then { q with points := q.points + 1 } else q) =
          rest.map fun q => q := by
        refine List.map_congr_left fun q hq => ?_
        have hq2 : q.id ≠ pid := by
          intro he
          apply hN.1
          rw [hp, ← he]
          exact List.mem_map_of_mem Player.id hq
        rw [if_neg hq2]
      rw [hrest, List.map_id']
    · rw [bumpFirst, if_neg hp, List.map_cons, if_neg hp, ih hN.2]

theorem find?_id_map_bump (ps : List Player) (pid : String)
    (g : Player → Player) (hg : ∀ p, (g p).id = p.id) :
    ((ps.map g).find? fun p => p.id = pid) =
      (ps.find? fun p => p.id = pid).map g := by
  rw [List.find?_map]
  have hpred : ((fun p : Player => decide (p.id = pid)) ∘ g) =
      fun p : Player => decide (p.id = pid) := by
    funext p
    simp [hg p]
  rw [hpred]

theorem awardPoints_foldl_spec (pids : List String) (players : List Player)
    (ns : List String) (hN : (players.map Player.id).Nodup) (hP : pids.Nodup) :
    (pids.foldl
        (fun acc pid =>
          match acc.1.find? fun p => p.id = pid with
          | some p => (bumpFirst acc.1 pid, acc.2 ++ [p.name])
          | none => acc)
        (players, ns)) =
      (players.map fun p =>
         if p.id ∈ pids then { p with points := p.points + 1 } else p,
       ns ++ pids.filterMap fun pid =>
         (players.find? fun p => p.id = pid).map Player.name) := by
  induction pids generalizing players ns with
  | nil =>
    simp
  | cons pid rest ih =>
    rw [List.nodup_cons] at hP
    rw [List.foldl_cons]
    cases hf : players.find? fun p => p.id = pid with
    | none =>
      have hnone : ∀ q ∈ players, q.id ≠ pid := by
        intro q hq
        have := List.find?_eq_none.mp hf q hq
        simpa using this
      have hmap : (players.map fun p =>
          if p.id ∈ pid :: rest then { p with points := p.points + 1 } else p) =
          players.map fun p =>
            if p.id ∈ rest then { p with points := p.points + 1 } else p := by
        refine List.map_congr_left fun q hq => ?_
        by_cases hqr : q.id ∈ rest
        · rw [if_pos (List.mem_cons_of_mem _ hqr), if_pos hqr]
        · rw [if_neg (by simp [hnone q hq, hqr]), if_neg hqr]
      dsimp only
      rw [hmap, ih players ns hN hP.2]
      simp [List.filterMap_cons, hf]
    | some p =>
      have hglen : ∀ q : Player,
          ((fun q => if q.id = pid then { q with points := q.points + 1 } else q) q).id
            = q.id := by
        intro q
        by_cases hq : q.id = pid <;> simp [hq]
      rw [bumpFirst_eq_map players pid hN]
      have hN1 : ((players.map fun q =>
          if q.id = pid then { q with points := q.points + 1 } else q).map
            Player.id).Nodup := by
        rw [List.map_map]
        have : (Player.id ∘ fun q =>
            if q.id = pid then { q with points := q.points + 1 } else q) =
            Player.id := by
          funext q
          exact hglen q
        rw [this]
        exact hN
      rw [ih _ (ns ++ [p.name]) hN1 hP.2]
      have hmap2 : ((players.map fun q =>
          if q.id = pid then { q with points := q.points + 1 } else q).map fun q =>
            if q.id ∈ rest then { q with points := q.points + 1 } else q) =
          players.map fun q =>
            if q.id ∈ pid :: rest then { q with points := q.points + 1 } else q := by
        rw [List.map_map]
        refine List.map_congr_left fun q _ => ?_
        by_cases hq : q.id = pid
        · have h2 : ¬ ({ q with points := q.points + 1 } : Player).id ∈ rest := by
            simpa [hq] using hP.1
          simp only [Function.comp, if_pos hq, if_neg h2]
          rw [if_pos (by rw [hq]; exact List.mem_cons_self pid rest)]
        · simp only [Function.comp, if_neg hq]
          by_cases hqr : q.id ∈ rest
          · rw [if_pos hqr, if_pos (List.mem_cons_of_mem _ hqr)]
          · rw [if_neg hqr, if_neg (by simp [hq, hqr])]
      have hfm2 : (rest.filterMap fun q =>
          ((players.map fun r =>
            if r.id = pid then { r with points := r.points + 1 } else r).find?
              fun p => p.id = q).map Player.name) =
          rest.filterMap fun q =>
            (players.find? fun p => p.id = q).map Player.name := by
        refine List.filterMap_congr fun q _ => ?_
        rw [find?_id_map_bump players q _ hglen, Option.map_map]
        congr 1
        funext r
        by_cases hr : r.id = pid <;> simp [hr]
      rw [hmap2, hfm2]
      simp [List.filterMap_cons, hf, List.append_assoc]

theorem awardPoints_spec (players : List Player) (pids : List String)
    (hN : (players.map Player.id).Nodup) (hP : pids.Nodup) :
    awardPoints players pids =
      (players.map fun p =>
         if p.id ∈ pids then { p with points := p.points + 1 } else p,
       pids.filterMap fun pid =>
         (players.find? fun p => p.id = pid).map Player.name) := by
  rw [awardPoints, awardPoints_foldl_spec pids players [] hN hP]
  rw [List.nil_append]

theorem choose_emits_head (rooms : Registry) (rid t : String) (room : Room)
    (parent : Player) (g : Group)
    (hr : findRoom rooms rid = some room)
    (hp : room.players.get? room.currentTurnPlayerIndex = some parent)
    (hfg : room.onomatopoeiaList.find? (fun g' => g'.onomatopoeia = t) = some g) :
    (chooseOnomatopoeia rooms rid t).2.head? =
      some (Emit.onomatopoeiaChosen rid (awardPoints room.players g.playerIds).2
        (awardPoints room.players g.playerIds).1) := by
  rw [chooseOnomatopoeia, hr]
  dsimp only
  rw [hfg]
  dsimp only
  rw [hp]
  dsimp only
  by_cases hdeck : room.deck.length = 0
  · rw [if_pos hdeck]
    rfl
  · rw [if_neg hdeck]
    rfl

theorem choose_emits_head_nogroup (rooms : Registry) (rid t : String)
    (room : Room) (parent : Player)
    (hr : findRoom rooms rid = some room)
    (hp : room.players.get? room.currentTurnPlayerIndex = some parent)
    (hfg : room.onomatopoeiaList.find? (fun g' => g'.onomatopoeia = t) = none) :
    (chooseOnomatopoeia rooms rid t).2.head? =
      some (Emit.onomatopoeiaChosen rid [] room.players) := by
  rw [chooseOnomatopoeia, hr]
  dsimp only
  rw [hfg]
  dsimp only
  rw [hp]
  dsimp only
  by_cases hdeck : room.deck.length = 0
  · rw [if_pos hdeck]
    rfl
  · rw [if_neg hdeck]
    rfl

/-- C3: Scoring — when the chosen text's submission group carries exactly
the submitter ids {a, b} (both of them current players), exactly the
players with ids a and b gain one point each, every other player is
unchanged, and the chosen names broadcast are their names; if the chosen
text matches no group, no player's points change (the full unchanged
player list is broadcast). -/
theorem C3_scoring (rooms : Registry) (rid t : String) (room : Room)
    (parent : Player) (a b : String) (pa pb : Player)
    (hr : findRoom rooms rid = some room)
    (hp : room.players.get? room.currentTurnPlayerIndex = some parent)
    (hN : (room.players.map Player.id).Nodup)
    (hfa : room.players.find? (fun p => p.id = a) = some pa)
    (hfb : room.players.find? (fun p => p.id = b) = some pb)
    (hab : a ≠ b) :
    (room.onomatopoeiaList.find? (fun g => g.onomatopoeia = t) = some ⟨t, [a, b]⟩ →
      (chooseOnomatopoeia rooms rid t).2.head? =
        some (Emit.onomatopoeiaChosen rid [pa.name, pb.name]
          (room.players.map fun p =>
            if p.id ∈ ([a, b] : List String)
            then { p with points := p.points + 1 } else p)))
    ∧ (room.onomatopoeiaList.find? (fun g => g.onomatopoeia = t) = none →
      (chooseOnomatopoeia rooms rid t).2.head? =
        some (Emit.onomatopoeiaChosen rid [] room.players)) := by
  constructor
  · intro hfg
    rw [choose_emits_head rooms rid t room parent ⟨t, [a, b]⟩ hr hp hfg]
    rw [awardPoints_spec room.players [a, b] hN (by simp [hab])]
    simp [List.filterMap_cons, hfa, hfb]
  · intro hfg
    exact choose_emits_head_nogroup rooms rid t room parent hr hp hfg

/-- A three-player room with a "boing" group submitted by the children. -/
def roomC3 : Room :=
  { players := [⟨"p", "P", 0⟩, ⟨"a", "A", 0⟩, ⟨"b", "B", 0⟩], deck := ["k"],
    currentTurnPlayerIndex := 0, onomatopoeiaList := [⟨"boing", ["a", "b"]⟩],
    deckName := "d", currentCard := some "c", roundCount := 1, stats := [] }

/-- Witness for C3 at `roomC3`: choosing "boing" awards a point to exactly
the two submitters and broadcasts their names. -/
theorem C3_scoring_witness :
    (chooseOnomatopoeia [("r", roomC3)] "r" "boing").2.head? =
      some (Emit.onomatopoeiaChosen "r" ["A", "B"]
        (roomC3.players.map fun p =>
          if p.id ∈ (["a", "b"] : List String)
          then { p with points := p.points + 1 } else p)) :=
  (C3_scoring [("r", roomC3)] "r" "boing" roomC3 ⟨"p", "P", 0⟩ "a" "b"
    ⟨"a", "A", 0⟩ ⟨"b", "B", 0⟩ rfl rfl (by decide) rfl rfl (by decide)).1 rfl

/-- C10 amended: Stale submitter ids in the chosen group are skipped
safely provided the parent index is still valid — then whatever ids the
group carries, `chooseOnomatopoeia` completes and broadcasts: points are
added exactly to the current players whose id occurs in the group (ids
with no matching player award nothing), and the chosen-name list contains
exactly the names of the ids still present, in group order, omitting the
absent ones.  When the parent index is itself stale (out of range after a
disconnect), the handler instead throws at `parentPlayer.id` after the
points were already awarded, and nothing is broadcast. -/
theorem C10_stale_ids (rooms : Registry) (rid t : String) (room : Room)
    (parent : Player) (g : Group)
    (hr : findRoom rooms rid = some room)
    (hp : room.players.get? room.currentTurnPlayerIndex = some parent)
    (hN : (room.players.map Player.id).Nodup)
    (hgN : g.playerIds.Nodup)
    (hfg : room.onomatopoeiaList.find? (fun g' => g'.onomatopoeia = t) = some g) :
    (chooseOnomatopoeia rooms rid t).2.head? =
      some (Emit.onomatopoeiaChosen rid
        (g.playerIds.filterMap fun pid =>
          (room.players.find? fun p => p.id = pid).map Player.name)
        (room.players.map fun p =>
          if p.id ∈ g.playerIds then { p with points := p.points + 1 } else p)) := by
  rw [choose_emits_head rooms rid t room parent g hr hp hfg]
  rw [awardPoints_spec room.players g.playerIds hN hgN]

/-- A room whose recorded group still lists a disconnected player "z". -/
def roomC10 : Room :=
  { players := [⟨"p", "P", 0⟩, ⟨"a", "A", 0⟩], deck := ["k"],
    currentTurnPlayerIndex := 0, onomatopoeiaList := [⟨"boing", ["a", "z"]⟩],
    deckName := "d", currentCard := some "c", roundCount := 1, stats := [] }

/-- A post-disconnect room: the departed parent (third player, id "b")
left `currentTurnPlayerIndex = 2` out of range, and the recorded group
still lists the stale id "b" next to the surviving "a". -/
def roomC10x : Room :=
  { players := [⟨"a", "A", 0⟩, ⟨"c", "C", 0⟩], deck := ["k"],
    currentTurnPlayerIndex := 2, onomatopoeiaList := [⟨"x", ["a", "b"]⟩],
    deckName := "d", currentCard := some "c0", roundCount := 1, stats := [] }

/-- C10 counterexample: in the reachable post-disconnect state `roomC10x`
the chosen group holds a stale id, but the parent index is stale too, so
`chooseOnomatopoeia` does not complete: the surviving submitter "a" is
awarded a point (the mutation before the throw), yet reading
`parentPlayer.id` on an undefined player aborts the handler and nothing —
no chosen-player names at all — is broadcast, refuting "completes without
error ... and omits the absent ids from the broadcast". -/
theorem C10_counterexample :
    (chooseOnomatopoeia [("r", roomC10x)] "r" "x").2 = []
    ∧ findRoom (chooseOnomatopoeia [("r", roomC10x)] "r" "x").1 "r" =
        some ({ roomC10x with players := [⟨"a", "A", 1⟩, ⟨"c", "C", 0⟩] })
    ∧ ¬ (roomC10x.currentTurnPlayerIndex < roomC10x.players.length) :=
  ⟨by decide, by decide, by decide⟩

/-- Witness for C10 amended at `roomC10`: the stale id "z" is skipped —
only "a" is awarded and only "A" appears among the chosen names. -/
theorem C10_stale_ids_witness :
    (chooseOnomatopoeia [("r", roomC10)] "r" "boing").2.head? =
      some (Emit.onomatopoeiaChosen "r"
        ((["a", "z"] : List String).filterMap fun pid =>
          (roomC10.players.find? fun p => p.id = pid).map Player.name)
        (roomC10.players.map fun p =>
          if p.id ∈ (["a", "z"] : List String)
          then { p with points := p.points + 1 } else p)) :=
  C10_stale_ids [("r", roomC10)] "r" "boing" roomC10 ⟨"p", "P", 0⟩
    ⟨"boing", ["a", "z"]⟩ rfl rfl (by decide) (by decide) rfl

/-! ## Game-end lemmas -/

theorem le_foldl_max (xs : List Nat) (a : Nat) : a ≤ xs.foldl Nat.max a := by
  induction xs generalizing a with
  | nil => exact Nat.le_refl a
  | cons x xs ih =>
    exact Nat.le_trans (Nat.le_max_left a x) (ih (Nat.max a x))

theorem mem_le_foldl_max (xs : List Nat) (a : Nat) :
    ∀ x ∈ xs, x ≤ xs.foldl Nat.max a := by
  induction xs generalizing a with
  | nil => intro x hx; cases hx
  | cons y ys ih =>
    intro x hx
    rcases List.mem_cons.mp hx with h1 | h1
    · subst h1
      exact Nat.le_trans (Nat.le_max_right a x) (le_foldl_max ys (Nat.max a x))
    · exact ih (Nat.max a y) x h1

theorem foldl_max_mem (xs : List Nat) (a : Nat) :
    xs.foldl Nat.max a = a ∨ xs.foldl Nat.max a ∈ xs := by
  induction xs generalizing a with
  | nil => exact Or.inl rfl
  | cons y ys ih =>
    rcases ih (Nat.max a y) with h1 | h1
    · rcases Nat.le_total a y with h2 | h2
      · right
        have h3 : Nat.max a y = y := Nat.max_eq_right h2
        rw [List.foldl_cons, h1, h3]
        exact List.mem_cons_self y ys
      · left
        have h3 : Nat.max a y = a := Nat.max_eq_left h2
        rw [List.foldl_cons, h1, h3]
    · right
      rw [List.foldl_cons]
      exact List.mem_cons_of_mem y h1

theorem winners_iff (ps : List Player) (p : Player) :
    p ∈ ps.filter (fun q => maxPts (ps.map Player.points) = some q.points) ↔
      p ∈ ps ∧ ∀ q ∈ ps, q.points ≤ p.points := by
  cases ps with
  | nil => simp
  | cons p0 rest =>
    rw [List.map_cons, maxPts, List.mem_filter]
    constructor
    · rintro ⟨hmem, hmax⟩
      have hmax2 : (rest.map Player.points).foldl Nat.max p0.points = p.points := by
        simpa using hmax
      refine ⟨hmem, fun q hq => ?_⟩
      rcases List.mem_cons.mp hq with h1 | h1
      · rw [h1, ← hmax2]
        exact le_foldl_max (rest.map Player.points) p0.points
      · rw [← hmax2]
        exact mem_le_foldl_max (rest.map Player.points) p0.points q.points
          (List.mem_map_of_mem Player.points h1)
    · rintro ⟨hmem, hmax⟩
      refine ⟨hmem, ?_⟩
      have hub : (rest.map Player.points).foldl Nat.max p0.points ≤ p.points := by
        rcases foldl_max_mem (rest.map Player.points) p0.points with h1 | h1
        · rw [h1]
          exact hmax p0 (List.mem_cons_self p0 rest)
        · obtain ⟨q, hq, hqe⟩ := List.mem_map.mp h1
          rw [← hqe]
          exact hmax q (List.mem_cons_of_mem p0 hq)
      have hlb : p.points ≤ (rest.map Player.points).foldl Nat.max p0.points := by
        rcases List.mem_cons.mp hmem with h1 | h1
        · rw [h1]
          exact le_foldl_max (rest.map Player.points) p0.points
        · exact mem_le_foldl_max (rest.map Player.points) p0.points p.points
            (List.mem_map_of_mem Player.points h1)
      simp [Nat.le_antisymm hub hlb]

theorem endGame_spec (rooms : Registry) (rid : String) (room : Room)
    (hr : findRoom rooms rid = some room) :
    (endGame rooms rid).1 = delRoom rooms rid
    ∧ (endGame rooms rid).2 =
      [Emit.gameOver rid
        (room.players.filter fun q =>
          maxPts (room.players.map Player.points) = some q.points)
        room.players
        (room.players.map fun p =>
          (p.id, topScan (objOrder ((getAssoc room.stats p.id).getD []))))] := by
  rw [endGame, hr]
  exact ⟨rfl, rfl⟩

/-- C4: Deck exhaustion ends the game — with the room's deck empty, (a) a
`drawCard` by the current parent broadcasts `gameOver` whose winners are
exactly the players of maximal points and removes the room from the
registry, and (b) a `chooseAnswer` (the deck being empty afterwards, since
choosing never consumes cards) broadcasts the choice followed by the same
kind of `gameOver` over the post-award players and removes the room. -/
theorem C4_deck_exhaustion (rooms : Registry) (rid sid t : String) (room : Room)
    (hr : findRoom rooms rid = some room) (hdeck : room.deck = []) :
    (∀ cur, room.players.get? room.currentTurnPlayerIndex = some cur →
      sid = cur.id →
      findRoom (drawCard rooms rid sid).1 rid = none
      ∧ (drawCard rooms rid sid).2 =
          [Emit.gameOver rid
            (room.players.filter fun q =>
              maxPts (room.players.map Player.points) = some q.points)
            room.players
            (room.players.map fun p =>
              (p.id, topScan (objOrder ((getAssoc room.stats p.id).getD []))))]
      ∧ ∀ p, p ∈ (room.players.filter fun q =>
            maxPts (room.players.map Player.points) = some q.points) ↔
          (p ∈ room.players ∧ ∀ q ∈ room.players, q.points ≤ p.points))
    ∧ (∀ parent, room.players.get? room.currentTurnPlayerIndex = some parent →
      ∃ ps ns ws us,
        (chooseOnomatopoeia rooms rid t).2 =
          [Emit.onomatopoeiaChosen rid ns ps, Emit.gameOver rid ws ps us]
        ∧ findRoom (chooseOnomatopoeia rooms rid t).1 rid = none
        ∧ ∀ p, p ∈ ws ↔ (p ∈ ps ∧ ∀ q ∈ ps, q.points ≤ p.points)) := by
  constructor
  · intro cur hcur hsid
    have hlast : room.deck.getLast? = none := by rw [hdeck]; rfl
    have hdc : drawCard rooms rid sid = endGame rooms rid := by
      rw [drawCard, hr]
      dsimp only
      rw [hcur]
      dsimp only
      rw [if_pos hsid, hlast]
    obtain ⟨he1, he2⟩ := endGame_spec rooms rid room hr
    refine ⟨?_, ?_, fun p => winners_iff room.players p⟩
    · rw [hdc, he1]
      exact findRoom_delRoom_self rooms rid
    · rw [hdc, he2]
  · intro parent hparent
    have hlen : room.deck.length = 0 := by rw [hdeck]; rfl
    cases hfg : room.onomatopoeiaList.find? fun g => g.onomatopoeia = t with
    | some g =>
      have hfound := findRoom_setRoom_self rooms rid
        ({ room with
            players := (awardPoints room.players g.playerIds).1
            onomatopoeiaList := [] }) room hr
      obtain ⟨he1, he2⟩ := endGame_spec _ rid _ hfound
      refine ⟨(awardPoints room.players g.playerIds).1,
        (awardPoints room.players g.playerIds).2,
        ((awardPoints room.players g.playerIds).1.filter fun q =>
          maxPts ((awardPoints room.players g.playerIds).1.map Player.points) =
            some q.points),
        ((awardPoints room.players g.playerIds).1.map fun p =>
          (p.id, topScan (objOrder ((getAssoc room.stats p.id).getD [])))),
        ?_, ?_, fun p => winners_iff _ p⟩
      · rw [chooseOnomatopoeia, hr]
        dsimp only
        rw [hfg]
        dsimp only
        rw [hparent]
        dsimp only
        rw [if_pos hlen]
        dsimp only
        rw [he2]
      · rw [chooseOnomatopoeia, hr]
        dsimp only
        rw [hfg]
        dsimp only
        rw [hparent]
        dsimp only
        rw [if_pos hlen]
        dsimp only
        rw [he1]
        exact findRoom_delRoom_self _ rid
    | none =>
      have hfound := findRoom_setRoom_self rooms rid
        { room with onomatopoeiaList := [] } room hr
      obtain ⟨he1, he2⟩ := endGame_spec _ rid _ hfound
      refine ⟨room.players, [],
        (room.players.filter fun q =>
          maxPts (room.players.map Player.points) = some q.points),
        (room.players.map fun p =>
          (p.id, topScan (objOrder ((getAssoc room.stats p.id).getD [])))),
        ?_, ?_, fun p => winners_iff _ p⟩
      · rw [chooseOnomatopoeia, hr]
        dsimp only
        rw [hfg]
        dsimp only
        rw [hparent]
        dsimp only
        rw [if_pos hlen]
        dsimp only
        rw [he2]
      · rw [chooseOnomatopoeia, hr]
        dsimp only
        rw [hfg]
        dsimp only
        rw [hparent]
        dsimp only
        rw [if_pos hlen]
        dsimp only
        rw [he1]
        exact findRoom_delRoom_self _ rid

/-- A one-room registry whose deck is already empty, parent "p". -/
def roomC4 : Room :=
  { players := [⟨"p", "P", 1⟩, ⟨"c", "C", 2⟩], deck := [],
    currentTurnPlayerIndex := 0, onomatopoeiaList := [],
    deckName := "d", currentCard := some "c0", roundCount := 3, stats := [] }

/-- Witness for C4 at `roomC4`: both the parent's draw on the empty deck
and a choice with the deck empty remove the room from the registry. -/
theorem C4_deck_exhaustion_witness :
    findRoom (drawCard [("r", roomC4)] "r" "p").1 "r" = none
    ∧ findRoom (chooseOnomatopoeia [("r", roomC4)] "r" "x").1 "r" = none := by
  have h := C4_deck_exhaustion [("r", roomC4)] "r" "p" "x" roomC4 rfl rfl
  obtain ⟨h1, _, _⟩ := h.1 ⟨"p", "P", 1⟩ rfl rfl
  obtain ⟨ps, ns, ws, us, _, hb2, _⟩ := h.2 ⟨"p", "P", 1⟩ rfl
  exact ⟨h1, hb2⟩

/-! ## Top-word scan lemmas -/

/-- Highest count among usage entries (0 when empty). -/
def maxCount (es : Usage) : Nat := (es.map Prod.snd).foldl Nat.max 0

theorem topScan_foldl_eq (es : Usage) (w : Option String) (c : Nat) :
    es.foldl topStep (w, c) =
      if c < (es.map Prod.snd).foldl Nat.max c then
        match es.find? (fun e => e.2 = (es.map Prod.snd).foldl Nat.max c) with
        | some e => (some e.1, e.2)
        | none => (w, c)
      else (w, c) := by
  induction es generalizing w c with
  | nil => simp
  | cons e es ih =>
    rw [List.foldl_cons, List.map_cons, List.foldl_cons]
    by_cases hce : c < e.2
    · have hstep : topStep (w, c) e = (some e.1, e.2) := by
        rw [topStep, if_pos hce]
      have hmax : Nat.max c e.2 = e.2 := Nat.max_eq_right (Nat.le_of_lt hce)
      rw [hstep, ih (some e.1) e.2, hmax]
      have hle : e.2 ≤ (es.map Prod.snd).foldl Nat.max e.2 :=
        le_foldl_max (es.map Prod.snd) e.2
      by_cases htop : e.2 < (es.map Prod.snd).foldl Nat.max e.2
      · rw [if_pos htop, if_pos (Nat.lt_trans hce htop)]
        have hne : ¬ (e.2 = (es.map Prod.snd).foldl Nat.max e.2) :=
          Nat.ne_of_lt htop
        have hd : decide (e.2 = (es.map Prod.snd).foldl Nat.max e.2) = false := by
          simpa using hne
        rw [List.find?_cons, hd]
        cases hf : es.find? fun x =>
            decide (x.2 = (es.map Prod.snd).foldl Nat.max e.2) with
        | some x => rfl
        | none =>
          exfalso
          rcases foldl_max_mem (es.map Prod.snd) e.2 with hm | hm
          · exact hne hm.symm
          · obtain ⟨x, hx, hxe⟩ := List.mem_map.mp hm
            have := List.find?_eq_none.mp hf x hx
            exact absurd (by simpa using hxe) this
      · have heq : (es.map Prod.snd).foldl Nat.max e.2 = e.2 :=
          Nat.le_antisymm (Nat.le_of_not_lt htop) hle
        rw [if_neg htop, if_pos (by rw [heq]; exact hce)]
        have hd : decide (e.2 = (es.map Prod.snd).foldl Nat.max e.2) = true := by
          simp [heq]
        rw [List.find?_cons, hd]
    · have hstep : topStep (w, c) e = (w, c) := by
        rw [topStep, if_neg hce]
      have hmax : Nat.max c e.2 = c := Nat.max_eq_left (Nat.le_of_not_lt hce)
      rw [hstep, ih w c, hmax]
      by_cases htop : c < (es.map Prod.snd).foldl Nat.max c
      · rw [if_pos htop, if_pos htop]
        have hne : ¬ (e.2 = (es.map Prod.snd).foldl Nat.max c) := by
          intro he
          have hle2 : e.2 ≤ c := Nat.le_of_not_lt hce
          rw [← he] at htop
          omega
        have hd : decide (e.2 = (es.map Prod.snd).foldl Nat.max c) = false := by
          simpa using hne
        rw [List.find?_cons, hd]
      · rw [if_neg htop, if_neg htop]

theorem objOrder_id {α : Type} (l : List (String × α))
    (h : ∀ p ∈ l, isArrayIndex p.1 = false) : objOrder l = l := by
  have h1 : l.filter (fun p => isArrayIndex p.1) = [] := by
    rw [List.filter_eq_nil_iff]
    intro a ha
    simp [h a ha]
  have h2 : l.filter (fun p => ! isArrayIndex p.1) = l := by
    rw [List.filter_eq_self]
    intro a ha
    simp [h a ha]
  rw [objOrder, h1, h2]
  rfl

/-- C9 amended: `endGame` reports, per player, the result of scanning the
player's usage entries in `Object.entries` order (array-index-like answer
texts first in ascending numeric order, then the rest in insertion order;
when no text is array-index-like this is exactly insertion order); the
scan returns the first entry in that order whose count equals the maximal
count — a later tying entry never replaces it, since only a strictly
greater count replaces the current best — and a player with no recorded
entries gets `(none, 0)`. -/
theorem C9_topWord (es : Usage) :
    topScan [] = ((none : Option String), 0)
    ∧ ((∀ x ∈ es, isArrayIndex x.1 = false) → objOrder es = es)
    ∧ (∀ x ∈ es, x.2 ≤ maxCount es)
    ∧ (∀ e', (∀ x ∈ es, 1 ≤ x.2) →
        es.find? (fun x => x.2 = maxCount es) = some e' →
        topScan es = (some e'.1, e'.2))
    ∧ (∀ (rooms : Registry) (rid : String) (room : Room),
        findRoom rooms rid = some room →
        (endGame rooms rid).2 =
          [Emit.gameOver rid
            (room.players.filter fun q =>
              maxPts (room.players.map Player.points) = some q.points)
            room.players
            (room.players.map fun p =>
              (p.id, topScan (objOrder ((getAssoc room.stats p.id).getD []))))]) := by
  refine ⟨rfl, objOrder_id es, ?_, ?_, ?_⟩
  · intro x hx
    exact mem_le_foldl_max (es.map Prod.snd) 0 x.2
      (List.mem_map_of_mem Prod.snd hx)
  · intro e' hpos hfind
    have hmem : e' ∈ es := List.mem_of_find?_eq_some hfind
    have hval : e'.2 = maxCount es := by
      have := List.find?_some hfind
      simpa using this
    have hstrict : 0 < maxCount es :=
      Nat.lt_of_lt_of_le (hpos e' hmem) (Nat.le_of_eq hval)
    have hM : maxCount es = (es.map Prod.snd).foldl Nat.max 0 := rfl
    rw [topScan, topScan_foldl_eq, ← hM, if_pos hstrict, hfind]
  · intro rooms rid room hr
    exact (endGame_spec rooms rid room hr).2

/-- A finished game whose sole player used "b" twice and "1" twice, "b"
first. -/
def roomC9 : Room :=
  { players := [⟨"p", "P", 0⟩], deck := [],
    currentTurnPlayerIndex := 0, onomatopoeiaList := [],
    deckName := "d", currentCard := none, roundCount := 1,
    stats := [("p", [("b", 2), ("1", 2)])] }

/-- C9 counterexample: the first-seen text with the highest count in "P"'s
usage entries is "b" (counts tie at 2 and "b" was inserted first), yet
`endGame` reports topWord "1", because `Object.entries` enumerates the
array-index-like key "1" before "b" — so the tie is not won by the
first-seen text. -/
theorem C9_counterexample :
    ([("b", 2), ("1", 2)] : Usage).find? (fun x => x.2 = 2) = some ("b", 2)
    ∧ (endGame [("r", roomC9)] "r").2 =
      [Emit.gameOver "r" [⟨"p", "P", 0⟩] [⟨"p", "P", 0⟩]
        [("p", (some "1", 2))]]
    ∧ (some "1" : Option String) ≠ some "b" :=
  ⟨by decide, by decide, by decide⟩

/-- Witness for C9 amended on a concrete usage list with non-numeric
texts. -/
theorem C9_topWord_witness :
    objOrder ([("a", 2), ("bb", 1)] : Usage) = [("a", 2), ("bb", 1)]
    ∧ topScan ([("a", 2), ("bb", 1)] : Usage) = (some "a", 2) := by
  have h := C9_topWord ([("a", 2), ("bb", 1)] : Usage)
  exact ⟨h.2.1 (by decide), h.2.2.2.1 ("a", 2) (by decide) (by decide)⟩

end Onoma
